import Mathlib

/-!
Shallow embedding of the `simple_etl_pipeline` repository's validation and
generation core, together with theorems settling the specification claims.

The embedding mirrors:
  * `src/utils/validation.py` (`DataValidator`: `_filter_df`,
    `validate_foreign_keys`, `validate_constraints`,
    `validate_composite_keys`, `run_all_validations`);
  * `src/utils/generation.py` (`DataGenerator.inject_anomaly`);
  * `src/src/utils.py` (`DataGenerator.generate_sqlite` and its nested
    `_get_product_names`) and the parallel
    `src/data/data_generator.py` (`generate_sqlite`, `get_product_names`).

Python dictionaries are modelled as association lists (Python dict keys are
unique and iteration follows insertion order), pandas `DataFrame`s as a pair
of a positional-index list and a row list, scalar cell values as an inductive
`PyVal`, and randomness as explicitly threaded draws.
-/

set_option maxHeartbeats 1000000

namespace ETL

/-- A Python scalar cell value as it occurs in the generated tables:
`None`, `int`, `str`, `float` (modelled as a rational) or `bool`. -/
inductive PyVal where
  | none
  | int (n : ℤ)
  | str (s : String)
  | real (q : ℚ)
  | bool (b : Bool)
deriving DecidableEq, Repr

/-- A row of a DataFrame: an association list from column name to cell value
(pandas rows are accessed by column label throughout the validator). -/
abbrev Row := List (String × PyVal)

/-- Reading a cell `df[col]` for one row.  A column that is absent reads as
`PyVal.none`; the validator's configurations are expected to name only
columns present in the data (pandas would raise a `KeyError` otherwise), and
every theorem about column-reading code carries presence hypotheses. -/
def Row.getCell (r : Row) (c : String) : PyVal :=
  ((r.find? (fun e => e.1 == c)).map Prod.snd).getD PyVal.none

/-- The column `c` is present in row `r`. -/
def Row.hasCol (r : Row) (c : String) : Prop :=
  (r.find? (fun e => e.1 == c)).isSome

instance (r : Row) (c : String) : Decidable (Row.hasCol r c) := by
  unfold Row.hasCol; infer_instance

/-- A pandas DataFrame: the positional index (`df.index`) and the rows in
order.  Boolean-mask filtering keeps the index labels of surviving rows;
`reset_index(drop=True)` renumbers them `0..k-1`. -/
structure DataFrame where
  index : List ℕ
  rows : List Row
deriving DecidableEq, Repr

/-- The value list of column `c` (`df[col]`). -/
def DataFrame.col (df : DataFrame) (c : String) : List PyVal :=
  df.rows.map (fun r => Row.getCell r c)

/-- Boolean-mask filtering `df[mask]`: keeps exactly the rows satisfying the
row predicate, and keeps their original index labels. -/
def DataFrame.filterRows (df : DataFrame) (p : Row → Bool) : DataFrame :=
  { index := ((df.index.zip df.rows).filter (fun ir => p ir.2)).map Prod.fst,
    rows := df.rows.filter p }

/-- The embedding of `df.reset_index(drop=True)`. -/
def DataFrame.resetIndex (df : DataFrame) : DataFrame :=
  { index := List.range df.rows.length, rows := df.rows }

/-- The dataset passed through the validator: the Python dict
`df_dict : dict[str, DataFrame]`, as an association list in insertion
order. -/
abbrev Dataset := List (String × DataFrame)

/-- Dict lookup `df_dict[table]` / `df_dict.get(table)`. -/
def Dataset.lookup (d : Dataset) (t : String) : Option DataFrame :=
  (d.find? (fun e => e.1 == t)).map Prod.snd

/-- Dict assignment `df_dict[table] = df` for a key already present: the
entry for `t` is rebound, every other entry is untouched (the validator only
assigns keys it has just read, so no fresh key is ever inserted). -/
def Dataset.update (d : Dataset) (t : String) (df : DataFrame) : Dataset :=
  d.map (fun e => if e.1 == t then (t, df) else e)

/-- The warnings the validator can log (`logger.warning` calls): a skipped
foreign-key check, a composite-key duplicate report, and a constraint
expression that could not be evaluated. -/
inductive Warning where
  | fkSkip (table fkCol parent : String)
  | dupKeys (table : String) (keys : List String)
  | parseFail (cond : String)
deriving DecidableEq, Repr

/-- Comparison operators accepted by the `<col>.str.len() <op> <int>`
branch of `_filter_df`. -/
inductive CmpOp where
  | lt | gt | le | ge | eq | ne
deriving DecidableEq, Repr

/-- Evaluation of a comparison operator on naturals. -/
def CmpOp.eval : CmpOp → ℕ → ℕ → Bool
  | .lt, a, b => a < b
  | .gt, a, b => a > b
  | .le, a, b => a ≤ b
  | .ge, a, b => a ≥ b
  | .eq, a, b => a == b
  | .ne, a, b => a != b

/-- The parse of a constraint-expression string, mirroring the branch
structure of `DataValidator._filter_df`: the four regex-recognized predicate
shapes, and the `df.query` fallback for everything else.  The regex pattern
of a `str.contains` / `str.match` shape is abstracted to the Boolean test it
induces on a cell string; the fallback is abstracted to the observable
behaviour of `df.query(condition, engine="python")`: either it evaluates to a
row mask (`ok = true`, predicate `p`), or it raises (`ok = false`), in which
case `_filter_df` logs a warning and returns the input unchanged. -/
inductive Condition where
  | strContains (col : String) (pat : String → Bool) (na : Bool)
  | strMatch (col : String) (pat : String → Bool) (na : Bool)
  | isin (col : String) (vals : List PyVal)
  | strLen (col : String) (op : CmpOp) (n : ℕ)
  | query (src : String) (ok : Bool) (p : Row → Bool)

/-- Row test of `df[col].str.contains(pat, na=na)` (and `.str.match`): the
pattern test on string cells, the `na` fill value on everything else. -/
def strPred (pat : String → Bool) (na : Bool) (c : String) (r : Row) : Bool :=
  match Row.getCell r c with
  | .str s => pat s
  | _ => na

/-- Row test of `df[col].str.len() <op> n`: string length comparison on
string cells; non-strings give NaN and compare false. -/
def strLenPred (c : String) (op : CmpOp) (n : ℕ) (r : Row) : Bool :=
  match Row.getCell r c with
  | .str s => op.eval s.length n
  | _ => false

/-- Row test of `df[col].isin(vals)`. -/
def isinPred (c : String) (vals : List PyVal) (r : Row) : Bool :=
  vals.contains (Row.getCell r c)

/-- The embedding of `DataValidator._filter_df`: the four recognized shapes
filter the frame by the corresponding row mask; the `df.query` fallback
filters when it evaluates, and on failure logs a warning and returns the
frame unchanged (fail open). -/
def filterDf (df : DataFrame) (cond : Condition) : DataFrame × List Warning :=
  match cond with
  | .strContains c pat na => (df.filterRows (strPred pat na c), [])
  | .strMatch c pat na => (df.filterRows (strPred pat na c), [])
  | .isin c vals => (df.filterRows (isinPred c vals), [])
  | .strLen c op n => (df.filterRows (strLenPred c op n), [])
  | .query s ok p =>
      if ok then (df.filterRows p, []) else (df, [Warning.parseFail s])

/-- The foreign-key configuration `foreign_keys`: insertion-ordered
`table -> {fk_column: parent_table}`. -/
abbrev FKCfg := List (String × List (String × String))

/-- The flattened sequence of foreign-key checks in the order the two nested
loops of `validate_foreign_keys` perform them: `(table, fk_col, parent)`. -/
def fkTriples (cfg : FKCfg) : List (String × String × String) :=
  cfg.flatMap (fun e => e.2.map (fun cp => (e.1, cp.1, cp.2)))

/-- One iteration of the `validate_foreign_keys` loop body: if either table
is missing the check is skipped with a warning; otherwise the child is
filtered to the rows whose `fk_col` value occurs among the parent's `id`
values, its index is reset, and the dict entry is reassigned. -/
def fkStep (d : Dataset) (t c p : String) : Dataset × List Warning :=
  match d.lookup t, d.lookup p with
  | some child, some par =>
      let ids := par.col "id"
      (d.update t ((child.filterRows (fun r => ids.contains (Row.getCell r c))).resetIndex), [])
  | _, _ => (d, [Warning.fkSkip t c p])

/-- A loop that threads a state through a list of items while logging
warnings: the common shape of the `validate_foreign_keys` and
`validate_constraints` loops. -/
def foldWithWarnings {α β : Type} (g : α → β → α × List Warning)
    (l : List β) (a : α) : α × List Warning :=
  l.foldl (fun acc b => ((g acc.1 b).1, acc.2 ++ (g acc.1 b).2)) (a, [])

/-- The embedding of `DataValidator.validate_foreign_keys`. -/
def validate_foreign_keys (cfg : FKCfg) (d : Dataset) : Dataset × List Warning :=
  foldWithWarnings (fun dd tr => fkStep dd tr.1 tr.2.1 tr.2.2) (fkTriples cfg) d

/-- The composite-key configuration `composite_keys`:
`table -> [[col, ...], ...]`. -/
abbrev CKCfg := List (String × List (List String))

/-- Whether a list has a repeated element — `df.duplicated(...).any()`. -/
def hasDupList {α : Type} [DecidableEq α] : List α → Bool
  | [] => false
  | x :: xs => xs.contains x || hasDupList xs

/-- The embedding of `df.duplicated(subset=keys).any()`: some combination of
the key columns' values occurs in more than one row. -/
def hasDup (df : DataFrame) (keys : List String) : Bool :=
  hasDupList (df.rows.map (fun r => keys.map (fun k => Row.getCell r k)))

/-- The warnings one entry of the composite-key configuration produces: none
when its table is absent from the dataset (`df is None` → `continue`), and
otherwise one warning per declared key list whose combination of values is
duplicated in the table. -/
def ckWarn (d : Dataset) (e : String × List (List String)) : List Warning :=
  match d.lookup e.1 with
  | Option.none => []
  | some df =>
      e.2.flatMap (fun keys =>
        if hasDup df keys then [Warning.dupKeys e.1 keys] else [])

/-- The embedding of `DataValidator.validate_composite_keys`: the dataset is
returned as is; one warning is logged per configured `(table, keys)` entry
whose table is present and has a duplicated key combination. -/
def validate_composite_keys (cfg : CKCfg) (d : Dataset) : Dataset × List Warning :=
  (d, cfg.flatMap (ckWarn d))

/-- The constraint configuration `constraints.rules`:
`table -> [condition, ...]`. -/
abbrev ConstCfg := List (String × List Condition)

/-- Dict access `self.const_cfg.get(table, [])`. -/
def constLookup (cfg : ConstCfg) (t : String) : List Condition :=
  ((cfg.find? (fun e => e.1 == t)).map Prod.snd).getD []

/-- Sequential application of a table's constraint rules, each narrowing the
output of the previous one — the inner loop of `validate_constraints`. -/
def applyRules (df : DataFrame) (rules : List Condition) : DataFrame × List Warning :=
  foldWithWarnings filterDf rules df

/-- The embedding of `DataValidator.validate_constraints`: every table of the
dict is passed through its configured rules and then `reset_index`, and the
entry is reassigned. -/
def validate_constraints (cfg : ConstCfg) (d : Dataset) : Dataset × List Warning :=
  (d.map (fun e => (e.1, (applyRules e.2 (constLookup cfg e.1)).1.resetIndex)),
   d.flatMap (fun e => (applyRules e.2 (constLookup cfg e.1)).2))

/-- The embedding of `DataValidator.run_all_validations`: foreign keys, then
composite keys, then constraints. -/
def run_all_validations (fk : FKCfg) (ck : CKCfg) (cst : ConstCfg) (d : Dataset) :
    Dataset × List Warning :=
  let s1 := validate_foreign_keys fk d
  let s2 := validate_composite_keys ck s1.1
  let s3 := validate_constraints cst s2.1
  (s3.1, s1.2 ++ s2.2 ++ s3.2)

/-- The anomaly configuration consumed by `DataGenerator.inject_anomaly`
(`src/utils/generation.py`): an optional corruption probability
(`.get("probability", 0.1)`) and an optional per-dtype strategy table
(`.get("strategies", {})`). -/
structure AnomalyCfg where
  probability : Option ℚ
  strategies : Option (List (String × List PyVal))
deriving DecidableEq, Repr

/-- Dict access `strategies_table.get(dtype, [])`. -/
def stratLookup (m : List (String × List PyVal)) (dtype : String) : List PyVal :=
  ((m.find? (fun e => e.1 == dtype)).map Prod.snd).getD []

/-- The value of `self.anomaly_cfg.get("strategies", {}).get(dtype, [])`. -/
def cfgStrategies (cfg : AnomalyCfg) (dtype : String) : List PyVal :=
  match cfg.strategies with
  | Option.none => []
  | some m => stratLookup m dtype

/-- Whether the list obtained by
`self.anomaly_cfg.get("strategies", {}).get(dtype, [])` is the very list
object stored in the configuration (both `get` calls hit an existing key);
only then does the `strategies.append(...)` in `inject_anomaly` mutate the
configuration rather than a fresh local default list. -/
def stratAliased (cfg : AnomalyCfg) (dtype : String) : Bool :=
  match cfg.strategies with
  | Option.none => false
  | some m => (m.find? (fun e => e.1 == dtype)).isSome

/-- Appending a value to the strategy list stored for `dtype`. -/
def stratAppend (m : List (String × List PyVal)) (dtype : String) (v : PyVal) :
    List (String × List PyVal) :=
  m.map (fun e => if e.1 == dtype then (e.1, e.2 ++ [v]) else e)

/-- The embedding of `DataGenerator.inject_anomaly`
(`src/utils/generation.py`, lines 409-424).  Randomness is threaded
explicitly: `r` is the `random.random()` draw (a rational in `[0,1)`),
`negDraw` determines `random.randint(1, 100)` as `1 + negDraw % 100`, and
`choiceIdx` determines `random.choice(l)` as the element at
`choiceIdx % l.length`.  The result is the returned value together with the
anomaly configuration as it stands after the call — the
`strategies.append(-random.randint(1, 100))` line mutates the configured
`INTEGER` strategy list in place whenever that list was obtained from the
configuration itself. -/
def inject_anomaly (cfg : AnomalyCfg) (value : PyVal) (dtype : String)
    (column_name : Option String) (nullable : Bool)
    (r : ℚ) (negDraw : ℕ) (choiceIdx : ℕ) : PyVal × AnomalyCfg :=
  let probability := cfg.probability.getD (1 / 10)
  if probability < r then (value, cfg)
  else
    let strategies := cfgStrategies cfg dtype
    let isAgeInt := dtype == "INTEGER" &&
      (column_name == some "age" || column_name == some "salary")
    let neg : PyVal := PyVal.int (-(1 + (negDraw % 100 : ℕ) : ℤ))
    let strategies := if isAgeInt then strategies ++ [neg] else strategies
    let cfg1 :=
      if isAgeInt && stratAliased cfg dtype then
        { cfg with
          strategies := cfg.strategies.map (fun m => stratAppend m dtype neg) }
      else cfg
    if strategies.isEmpty then
      ((if nullable then PyVal.none else value), cfg1)
    else
      (strategies.getD (choiceIdx % strategies.length) PyVal.none, cfg1)

/-- Result of a run of the unique-product-name generator: normal
completion with the accumulated set, an `IndexError` from `random.choice`
on an empty word list, or exhaustion of the modelling fuel (the source
`while` loop simply has not exited yet after the given number of
iterations). -/
inductive NameGenResult where
  | ok (names : Finset String)
  | indexError
  | outOfFuel
deriving DecidableEq

/-- The `random.choice(l)` of the name generator: the element at the drawn
index for a non-empty list, an `IndexError` (`Option.none`) for an empty
one. -/
def pyChoice (l : List String) (k : ℕ) : Option String :=
  l.get? (k % l.length)

/-- The `while len(product_names) < num_rows` loop of `_get_product_names`
(`src/src/utils.py`, lines 58-60; identically `get_product_names` in
`src/data/data_generator.py`): each iteration draws one color, one product
and one model, concatenates them with spaces and inserts the string into the
set.  `rng i` gives the three `random.choice` index draws of iteration `i`;
`fuel` bounds the number of iterations modelled. -/
def productNamesLoop (colors products models : List String) (numRows : ℕ)
    (rng : ℕ → ℕ × ℕ × ℕ) : ℕ → ℕ → Finset String → NameGenResult
  | fuel, i, acc =>
    if acc.card < numRows then
      match fuel with
      | 0 => NameGenResult.outOfFuel
      | fuel' + 1 =>
          match pyChoice colors (rng i).1, pyChoice products (rng i).2.1,
              pyChoice models (rng i).2.2 with
          | some c, some p, some m =>
              productNamesLoop colors products models numRows rng fuel' (i + 1)
                (insert (c ++ " " ++ p ++ " " ++ m) acc)
          | _, _, _ => NameGenResult.indexError
    else NameGenResult.ok acc

/-- The embedding of `_get_product_names(num_rows)`: the word lists are read
from the configuration and the loop starts from the empty set.  There is no
emptiness check on the word lists before the loop. -/
def get_product_names (colors products models : List String) (numRows : ℕ)
    (rng : ℕ → ℕ × ℕ × ℕ) (fuel : ℕ) : NameGenResult :=
  productNamesLoop colors products models numRows rng fuel 0 ∅

/-- A table declaration from `sqlite_tables` in the configuration, reduced
to what the generation loop consumes: the table name and the requested row
count. -/
structure TableDecl where
  name : String
  numRows : ℕ
deriving DecidableEq, Repr

/-- The table names `generate_data` knows how to generate (the arms of its
`match table_name`). -/
def knownTables : List String :=
  ["users", "transactions", "products", "logs", "user_actions", "orders"]

/-- The parent tables whose `id` pool a table's generator reads via
`SELECT id FROM ...` before generating rows (`_generate_data` /
`generate_data`): `transactions` and `user_actions` read `users`; `orders`
reads `users` and `products`; the remaining tables read nothing. -/
def tableParents (t : String) : List String :=
  if t == "transactions" then ["users"]
  else if t == "user_actions" then ["users"]
  else if t == "orders" then ["users", "products"]
  else []

/-- Errors that abort the generation run: a `sqlite3` error from selecting
out of a table that was never created, and the `IndexError` that
`random.choice` raises on an empty identifier pool. -/
inductive GenError where
  | sqlError (table : String)
  | indexError (table : String)
deriving DecidableEq, Repr

/-- The database state during a generation run: for each created table, the
number of rows inserted so far (its identifier-pool size). -/
abbrev DbState := List (String × ℕ)

/-- The identifier-pool size of table `p`, `Option.none` if no such table
was created. -/
def dbPool (db : DbState) (p : String) : Option ℕ :=
  (db.find? (fun e => e.1 == p)).map Prod.snd

/-- Inserting `k` generated rows into table `t`. -/
def dbInsert (db : DbState) (t : String) (k : ℕ) : DbState :=
  db.map (fun e => if e.1 == t then (e.1, e.2 + k) else e)

/-- One iteration of the population loop of `generate_sqlite` for table
declaration `t`: an unknown table name generates no data and is skipped; a
known one first reads the identifier pools of its parent tables (a missing
parent table makes the `SELECT` fail), then draws from them per generated
row (an empty pool makes `random.choice` raise `IndexError` as soon as one
row is requested), and finally inserts the generated rows. -/
def genStep (db : DbState) (t : TableDecl) : Except GenError DbState :=
  if t.name ∈ knownTables then
    if (tableParents t.name).any (fun p => (dbPool db p).isNone) then
      Except.error (GenError.sqlError t.name)
    else if 0 < t.numRows &&
        (tableParents t.name).any (fun p => dbPool db p == some 0) then
      Except.error (GenError.indexError t.name)
    else Except.ok (dbInsert db t.name t.numRows)
  else Except.ok db

/-- The population loop of `generate_sqlite`: the declarations are processed
strictly in their order in the configuration, and the list of processed
table names is returned in that order. -/
def genLoop (db : DbState) : List TableDecl → Except GenError (List String)
  | [] => Except.ok []
  | t :: ts =>
      match genStep db t with
      | Except.error e => Except.error e
      | Except.ok db1 => (genLoop db1 ts).map (fun rest => t.name :: rest)

/-- The embedding of the orchestration of `DataGenerator.generate_sqlite`
(`src/src/utils.py` lines 256-322, `src/data/data_generator.py` lines
396-442): a first loop issues `CREATE TABLE IF NOT EXISTS` for every
declared table (each starts with an empty identifier pool), then the
population loop fills them one declaration at a time, in declaration
order — no reordering of the declarations takes place. -/
def generate_sqlite (decls : List TableDecl) : Except GenError (List String) :=
  genLoop (decls.map (fun t => (t.name, 0))) decls

/-- An object-level model of the validator, used to settle claims about
aliasing and in-place mutation that the value-level model cannot express.
The heap holds every `DataFrame` object ever allocated (by allocation index)
and every `dict` object (mapping table names to frame references).  The
validator methods receive the reference of the caller's `df_dict` and return
the reference of the dict object they `return` — in the source this is the
parameter itself. -/
structure Heap where
  frames : List DataFrame
  dicts : List (List (String × ℕ))
deriving DecidableEq, Repr

/-- Dereferencing a frame. -/
def Heap.readFrame (h : Heap) (fr : ℕ) : DataFrame :=
  (h.frames.get? fr).getD ⟨[], []⟩

/-- Allocating a fresh `DataFrame` object, as pandas does for every
boolean-mask filter and every `reset_index(drop=True)`. -/
def Heap.allocFrame (h : Heap) (df : DataFrame) : Heap × ℕ :=
  ({ h with frames := h.frames ++ [df] }, h.frames.length)

/-- Dereferencing a dict. -/
def Heap.readDict (h : Heap) (dr : ℕ) : List (String × ℕ) :=
  (h.dicts.get? dr).getD []

/-- Dict lookup `df_dict[table]` at the object level. -/
def Heap.dictLookup (h : Heap) (dr : ℕ) (t : String) : Option ℕ :=
  ((h.readDict dr).find? (fun e => e.1 == t)).map Prod.snd

/-- In-place dict assignment `df_dict[table] = frame`: the dict object at
`dr` is mutated; no new dict is allocated. -/
def Heap.dictAssign (h : Heap) (dr : ℕ) (t : String) (fr : ℕ) : Heap :=
  { h with
    dicts := h.dicts.set dr
      ((h.readDict dr).map (fun e => if e.1 == t then (t, fr) else e)) }

/-- Object-level `validate_foreign_keys` loop body: `child_df[mask]`
allocates a filtered copy, `reset_index(drop=True)` allocates again, and the
dict entry is reassigned in place.  No existing frame is ever written. -/
def fkStepHeap (h : Heap) (dr : ℕ) (t c p : String) : Heap :=
  match h.dictLookup dr t, h.dictLookup dr p with
  | some cr, some pr =>
      let child := h.readFrame cr
      let ids := (h.readFrame pr).col "id"
      let a1 := h.allocFrame (child.filterRows (fun r => ids.contains (Row.getCell r c)))
      let a2 := a1.1.allocFrame ((a1.1.readFrame a1.2).resetIndex)
      a2.1.dictAssign dr t a2.2
  | _, _ => h

/-- Object-level `validate_foreign_keys`: mutates the caller's dict and
returns the very same dict reference (`return df_dict`). -/
def validate_foreign_keys_heap (cfg : FKCfg) (h : Heap) (dr : ℕ) : Heap × ℕ :=
  ((fkTriples cfg).foldl (fun hh tr => fkStepHeap hh dr tr.1 tr.2.1 tr.2.2) h, dr)

/-- Object-level `validate_composite_keys`: purely a read (its warnings are
log output), returning its argument dict reference. -/
def validate_composite_keys_heap (_cfg : CKCfg) (h : Heap) (dr : ℕ) : Heap × ℕ :=
  (h, dr)

/-- One rule of the object-level constraint loop: every recognized shape and
every successful `df.query` allocates a filtered copy; a failing `df.query`
returns the same frame object unchanged. -/
def applyRuleHeapStep (acc : Heap × ℕ) (cond : Condition) : Heap × ℕ :=
  match cond with
  | .query _ false _ => acc
  | _ => acc.1.allocFrame (filterDf (acc.1.readFrame acc.2) cond).1

/-- Object-level application of one table's constraint rules. -/
def applyRulesHeap (h : Heap) (fr : ℕ) (rules : List Condition) : Heap × ℕ :=
  rules.foldl applyRuleHeapStep (h, fr)

/-- One table of the object-level `validate_constraints` loop: apply the
table's rules, allocate the `reset_index` copy, reassign the dict entry in
place. -/
def constraintTableHeap (cfg : ConstCfg) (dr : ℕ) (hh : Heap) (t : String) : Heap :=
  match hh.dictLookup dr t with
  | some fr =>
      let a1 := applyRulesHeap hh fr (constLookup cfg t)
      let a2 := a1.1.allocFrame ((a1.1.readFrame a1.2).resetIndex)
      a2.1.dictAssign dr t a2.2
  | Option.none => hh

/-- Object-level `validate_constraints`: for every table of the dict, apply
its rules, allocate the `reset_index` copy, reassign the entry in place, and
return the same dict reference. -/
def validate_constraints_heap (cfg : ConstCfg) (h : Heap) (dr : ℕ) : Heap × ℕ :=
  (((h.readDict dr).map Prod.fst).foldl (constraintTableHeap cfg dr) h, dr)

/-- Object-level `run_all_validations`. -/
def run_all_validations_heap (fk : FKCfg) (ck : CKCfg) (cst : ConstCfg)
    (h : Heap) (dr : ℕ) : Heap × ℕ :=
  let s1 := validate_foreign_keys_heap fk h dr
  let s2 := validate_composite_keys_heap ck s1.1 s1.2
  validate_constraints_heap cst s2.1 s2.2

/-- Dict access on the composite-key configuration: the key lists declared
for table `t` (empty when `t` is not configured). -/
def ckLookup (cfg : CKCfg) (t : String) : List (List String) :=
  ((cfg.find? (fun e => e.1 == t)).map Prod.snd).getD []

/-- The anomaly configuration of the C5 failing input: corruption
probability 1 and one configured `INTEGER` strategy. -/
def cfgMut : AnomalyCfg := ⟨some 1, some [("INTEGER", [PyVal.int (-999)])]⟩

/-- The default table declaration used for positional access in theorem
statements. -/
def defaultDecl : TableDecl := ⟨"", 0⟩

/-- The second heap extends the first: every frame object that existed
before still holds exactly its old contents (the new heap only appends
fresh frames). -/
def framesExtend (h1 h2 : Heap) : Prop :=
  h2.frames.take h1.frames.length = h1.frames

/-- The dataset transformation of `validate_foreign_keys`, with the warning
log projected away. -/
def fkApplyAll (l : List (String × String × String)) (d : Dataset) : Dataset :=
  l.foldl (fun dd tr => (fkStep dd tr.1 tr.2.1 tr.2.2).1) d

/-- Whether one foreign-key check keeps row `r` of table `t`: checks on
other tables keep it trivially; a check on `t` itself keeps it when its
`fk_col` value occurs among the parent's `id` values in the reference
dataset `d0` (a missing parent table means the check is skipped). -/
def fkKeep (d0 : Dataset) (t : String) (tr : String × String × String)
    (r : Row) : Bool :=
  if tr.1 == t then
    match d0.lookup tr.2.2 with
    | some par => (par.col "id").contains (Row.getCell r tr.2.1)
    | Option.none => true
  else true

/-- Whether row `r` of table `t` passes every foreign-key check of the
triple list, all evaluated against the parents' state in `d0`. -/
def survivesAll (l : List (String × String × String)) (d0 : Dataset)
    (t : String) (r : Row) : Bool :=
  l.all (fun tr => fkKeep d0 t tr r)

/-- Total dict lookup used in hypotheses: the table's frame, or an empty
frame when absent. -/
def lookupD (d : Dataset) (t : String) : DataFrame :=
  (d.lookup t).getD ⟨[], []⟩

/-! ### Basic lemmas about the loop combinator and dict operations -/

theorem foldl_warn_shift {α β : Type} (g : α → β → α × List Warning) (l : List β) :
    ∀ (a : α) (w : List Warning),
      l.foldl (fun acc b => ((g acc.1 b).1, acc.2 ++ (g acc.1 b).2)) (a, w) =
        ((foldWithWarnings g l a).1, w ++ (foldWithWarnings g l a).2) := by
  induction l with
  | nil => intro a w; simp [foldWithWarnings]
  | cons b l ih =>
      intro a w
      simp only [List.foldl_cons]
      rw [ih]
      have h2 : foldWithWarnings g (b :: l) a =
          ((foldWithWarnings g l (g a b).1).1,
            (g a b).2 ++ (foldWithWarnings g l (g a b).1).2) := by
        unfold foldWithWarnings
        simp only [List.foldl_cons]
        rw [ih]
        simp [foldWithWarnings]
      rw [h2]
      simp

theorem foldWithWarnings_cons {α β : Type} (g : α → β → α × List Warning)
    (b : β) (l : List β) (a : α) :
    foldWithWarnings g (b :: l) a =
      ((foldWithWarnings g l (g a b).1).1,
        (g a b).2 ++ (foldWithWarnings g l (g a b).1).2) := by
  unfold foldWithWarnings
  simp only [List.foldl_cons]
  rw [foldl_warn_shift]
  simp [foldWithWarnings]

theorem foldWithWarnings_fst {α β : Type} (g : α → β → α × List Warning)
    (l : List β) : ∀ (a : α),
    (foldWithWarnings g l a).1 = l.foldl (fun x b => (g x b).1) a := by
  induction l with
  | nil => intro a; rfl
  | cons b l ih => intro a; rw [foldWithWarnings_cons]; simp [ih]

theorem foldWithWarnings_append {α β : Type} (g : α → β → α × List Warning)
    (l1 l2 : List β) : ∀ (a : α),
    foldWithWarnings g (l1 ++ l2) a =
      ((foldWithWarnings g l2 (foldWithWarnings g l1 a).1).1,
        (foldWithWarnings g l1 a).2 ++
          (foldWithWarnings g l2 (foldWithWarnings g l1 a).1).2) := by
  induction l1 with
  | nil => intro a; simp [foldWithWarnings]
  | cons b l1 ih =>
      intro a
      rw [List.cons_append, foldWithWarnings_cons, foldWithWarnings_cons, ih]
      simp

theorem lookup_cons (e : String × DataFrame) (es : Dataset) (q : String) :
    Dataset.lookup (e :: es) q = if e.1 == q then some e.2 else Dataset.lookup es q := by
  unfold Dataset.lookup
  rw [List.find?_cons]
  cases h : e.1 == q <;> simp [h]

theorem update_cons (e : String × DataFrame) (es : Dataset) (t : String) (df : DataFrame) :
    Dataset.update (e :: es) t df =
      (if e.1 == t then (t, df) else e) :: Dataset.update es t df := rfl

theorem lookup_update_ne (d : Dataset) (t q : String) (df : DataFrame)
    (h : q ≠ t) : (d.update t df).lookup q = d.lookup q := by
  induction d with
  | nil => rfl
  | cons e es ih =>
      rw [update_cons, lookup_cons, lookup_cons]
      by_cases he : e.1 = t
      · have h1 : (e.1 == t) = true := beq_iff_eq.mpr he
        have h2 : ((t, df).1 == q) = false := by
          apply beq_eq_false_iff_ne.mpr
          exact fun hh => h hh.symm
        have h3 : (e.1 == q) = false := by
          apply beq_eq_false_iff_ne.mpr
          rw [he]; exact fun hh => h hh.symm
        simp [h1, h2, h3, ih]
      · have h1 : (e.1 == t) = false := beq_eq_false_iff_ne.mpr he
        simp only [h1, if_false]
        cases h2 : e.1 == q <;> simp [h2, ih]

theorem lookup_update_eq (d : Dataset) (t : String) (df : DataFrame)
    (h : (d.lookup t).isSome) : (d.update t df).lookup t = some df := by
  induction d with
  | nil => simp [Dataset.lookup] at h
  | cons e es ih =>
      rw [update_cons, lookup_cons]
      rw [lookup_cons] at h
      by_cases he : e.1 = t
      · have h1 : (e.1 == t) = true := beq_iff_eq.mpr he
        simp only [h1, if_true]
        have : ((t, df).1 == t) = true := beq_iff_eq.mpr rfl
        simp [this]
      · have h1 : (e.1 == t) = false := beq_eq_false_iff_ne.mpr he
        simp only [h1, Bool.false_eq_true, if_false] at h ⊢
        exact ih h

theorem lookup_update_none (d : Dataset) (t : String) (df : DataFrame)
    (h : d.lookup t = Option.none) : d.update t df = d := by
  induction d with
  | nil => rfl
  | cons e es ih =>
      rw [lookup_cons] at h
      rw [update_cons]
      by_cases he : e.1 = t
      · have h1 : (e.1 == t) = true := beq_iff_eq.mpr he
        simp [h1] at h
      · have h1 : (e.1 == t) = false := beq_eq_false_iff_ne.mpr he
        simp only [h1, Bool.false_eq_true, if_false] at h ⊢
        rw [ih h]

theorem lookup_isSome_of_update (d : Dataset) (t q : String) (df : DataFrame) :
    ((d.update t df).lookup q).isSome = (d.lookup q).isSome := by
  by_cases h : q = t
  · subst h
    cases hh : d.lookup q with
    | none => rw [lookup_update_none d q df hh, hh]
    | some v =>
        rw [lookup_update_eq d q df (by rw [hh]; rfl)]
        simp [hh]
  · rw [lookup_update_ne d t q df h]

theorem lookup_none_of_not_mem_keys (d : Dataset) (t : String)
    (h : t ∉ d.map Prod.fst) : d.lookup t = Option.none := by
  induction d with
  | nil => rfl
  | cons e es ih =>
      simp only [List.map_cons, List.mem_cons, not_or] at h
      rw [lookup_cons]
      have h1 : (e.1 == t) = false := beq_eq_false_iff_ne.mpr (fun hh => h.1 hh.symm)
      simp only [h1, if_false]
      exact ih h.2

theorem update_self (d : Dataset) (t : String) (df : DataFrame)
    (hnd : (d.map Prod.fst).Nodup) (h : d.lookup t = some df) :
    d.update t df = d := by
  induction d with
  | nil => rfl
  | cons e es ih =>
      simp only [List.map_cons, List.nodup_cons] at hnd
      rw [lookup_cons] at h
      rw [update_cons]
      by_cases he : e.1 = t
      · have h1 : (e.1 == t) = true := beq_iff_eq.mpr he
        simp only [h1, if_true] at h ⊢
        have he2 : e = (t, df) := by
          cases e with
          | mk a b =>
              simp only [Option.some_inj] at h
              simp only at he
              simp [he, ← h]
        rw [← he2]
        congr 1
        apply lookup_update_none
        apply lookup_none_of_not_mem_keys
        rw [← he]
        exact hnd.1
      · have h1 : (e.1 == t) = false := beq_eq_false_iff_ne.mpr he
        simp only [h1, Bool.false_eq_true, if_false] at h ⊢
        rw [ih hnd.2 h]

theorem isEmpty_false_of_ne_nil {α : Type} (l : List α) (h : l ≠ []) :
    l.isEmpty = false := by
  cases l with
  | nil => exact absurd rfl h
  | cons a l => rfl

theorem getD_mod_mem {α : Type} (l : List α) (d : α) (i : ℕ) (h : l ≠ []) :
    l.getD (i % l.length) d ∈ l := by
  have hl : 0 < l.length := List.length_pos.mpr h
  have hm : i % l.length < l.length := Nat.mod_lt _ hl
  rw [List.getD_eq_getElem l d hm]
  exact List.getElem_mem hm

theorem ckWarn_count_inner (t : String) (df : DataFrame) (keys : List String) :
    ∀ kls : List (List String),
      ((kls.flatMap (fun ks =>
          if hasDup df ks then [Warning.dupKeys t ks] else [])).count
          (Warning.dupKeys t keys)) =
        if hasDup df keys then kls.count keys else 0 := by
  intro kls
  induction kls with
  | nil => cases h : hasDup df keys <;> simp [h]
  | cons ks kls ih =>
      rw [List.flatMap_cons, List.count_append, ih]
      by_cases hk : ks = keys
      · subst hk
        cases h : hasDup df ks <;> simp [h, List.count_cons, Nat.add_comm]
      · have h2 : Warning.dupKeys t ks ≠ Warning.dupKeys t keys := by
          intro hc; cases hc; exact hk rfl
        cases h : hasDup df ks <;>
          cases h3 : hasDup df keys <;>
            simp [h, h3, List.count_cons, List.count_singleton, h2, hk]

theorem ckWarn_count_ne (d : Dataset) (e : String × List (List String))
    (t : String) (keys : List String) (h : e.1 ≠ t) :
    (ckWarn d e).count (Warning.dupKeys t keys) = 0 := by
  rw [List.count_eq_zero]
  intro hmem
  unfold ckWarn at hmem
  cases hl : d.lookup e.1 with
  | none => rw [hl] at hmem; simp at hmem
  | some df =>
      rw [hl] at hmem
      rw [List.mem_flatMap] at hmem
      obtain ⟨ks, _, hw⟩ := hmem
      by_cases hd : hasDup df ks
      · rw [if_pos hd] at hw
        rw [List.mem_singleton] at hw
        cases hw
        exact h rfl
      · rw [if_neg hd] at hw
        simp at hw

theorem ckWarn_count_eq (d : Dataset) (e : String × List (List String))
    (keys : List String) :
    (ckWarn d e).count (Warning.dupKeys e.1 keys) =
      match d.lookup e.1 with
      | some df => if hasDup df keys then e.2.count keys else 0
      | Option.none => 0 := by
  unfold ckWarn
  cases hl : d.lookup e.1 with
  | none => simp
  | some df => exact ckWarn_count_inner e.1 df keys e.2

theorem ck_count_zero (d : Dataset) (t : String) (keys : List String) :
    ∀ cfg : CKCfg, t ∉ cfg.map Prod.fst →
      ((cfg.flatMap (ckWarn d)).count (Warning.dupKeys t keys) = 0) := by
  intro cfg
  induction cfg with
  | nil => intro _; rfl
  | cons e cfg ih =>
      intro h
      simp only [List.map_cons, List.mem_cons, not_or] at h
      rw [List.flatMap_cons, List.count_append,
        ckWarn_count_ne d e t keys (fun hh => h.1 hh.symm), ih h.2]

theorem ck_count_main (d : Dataset) (t : String) (keys : List String) :
    ∀ cfg : CKCfg, (cfg.map Prod.fst).Nodup →
      ((cfg.flatMap (ckWarn d)).count (Warning.dupKeys t keys) =
        match d.lookup t with
        | some df => if hasDup df keys then (ckLookup cfg t).count keys else 0
        | Option.none => 0) := by
  intro cfg
  induction cfg with
  | nil =>
      intro _
      cases hl : d.lookup t <;> simp [ckLookup, hl]
  | cons e cfg ih =>
      intro hnd
      simp only [List.map_cons, List.nodup_cons] at hnd
      rw [List.flatMap_cons, List.count_append]
      by_cases he : e.1 = t
      · have h1 : (e.1 == t) = true := beq_iff_eq.mpr he
        have hck : ckLookup (e :: cfg) t = e.2 := by
          unfold ckLookup
          rw [List.find?_cons]
          simp [h1]
        subst he
        rw [ck_count_zero d e.1 keys cfg hnd.1]
        rw [ckWarn_count_eq d e keys, Nat.add_zero, hck]
      · have h1 : (e.1 == t) = false := beq_eq_false_iff_ne.mpr he
        have hck : ckLookup (e :: cfg) t = ckLookup cfg t := by
          unfold ckLookup
          rw [List.find?_cons]
          simp [h1]
        rw [ckWarn_count_ne d e t keys he, Nat.zero_add, ih hnd.2, hck]

/-! ### Claim theorems -/

/-- C2 (amended): `validate_composite_keys` is detection-only — it returns
the dataset itself, every table's rows unchanged — and, for a configuration
without duplicate table entries, the number of warnings it logs about a pair
`(t, keys)` is the number of times `keys` is listed for `t` in the
configuration when `t` is present and has a duplicated combination, and zero
otherwise.  In particular a key list that is declared once warns exactly
once when violated; a key list declared twice warns twice. -/
theorem validate_composite_keys_detection_only :
    ∀ (cfg : CKCfg) (d : Dataset) (t : String) (keys : List String),
      (cfg.map Prod.fst).Nodup →
      (validate_composite_keys cfg d).1 = d ∧
      ((validate_composite_keys cfg d).2.count (Warning.dupKeys t keys) =
        match d.lookup t with
        | some df => if hasDup df keys then (ckLookup cfg t).count keys else 0
        | Option.none => 0) :=
  fun cfg d t keys hnd => ⟨rfl, ck_count_main d t keys cfg hnd⟩

/-- Witness for C2 (amended): a table with a duplicated single-column key,
declared once, yields exactly one warning and an unchanged dataset. -/
theorem validate_composite_keys_detection_only_witness :
    (validate_composite_keys [("t", [["a"]])]
        [("t", ⟨[0, 1], [[("a", PyVal.int 1)], [("a", PyVal.int 1)]]⟩)]).1 =
      [("t", ⟨[0, 1], [[("a", PyVal.int 1)], [("a", PyVal.int 1)]]⟩)] ∧
    (validate_composite_keys [("t", [["a"]])]
        [("t", ⟨[0, 1], [[("a", PyVal.int 1)], [("a", PyVal.int 1)]]⟩)]).2.count
        (Warning.dupKeys "t" ["a"]) = 1 := by
  have h := validate_composite_keys_detection_only [("t", [["a"]])]
    [("t", ⟨[0, 1], [[("a", PyVal.int 1)], [("a", PyVal.int 1)]]⟩)] "t" ["a"]
    (by decide)
  exact ⟨h.1, by simpa using h.2⟩

/-- C2 counterexample: the claim promises exactly one warning per
`(table, key-column-set)` pair with a duplicate, over every composite-key
configuration; but the code warns once per configured entry, so the same
key set listed twice for the same table produces two warnings for that one
pair. -/
theorem validate_composite_keys_double_warning :
    (validate_composite_keys [("t", [["a"], ["a"]])]
        [("t", ⟨[0, 1], [[("a", PyVal.int 1)], [("a", PyVal.int 1)]]⟩)]).2 =
      [Warning.dupKeys "t" ["a"], Warning.dupKeys "t" ["a"]] := by
  decide

/-- C3: for every DataFrame and every constraint expression that matches
none of the recognized predicate shapes and whose `df.query` evaluation
fails, `_filter_df` logs a warning and returns the table unchanged (fails
open): no exception escapes and the returned frame equals the input.
Moreover, inside a rule sequence such a rule is skipped in isolation — the
surrounding rules still apply to the table. -/
theorem filter_df_fails_open :
    (∀ (df : DataFrame) (s : String) (p : Row → Bool),
        filterDf df (Condition.query s false p) = (df, [Warning.parseFail s])) ∧
    (∀ (df : DataFrame) (rules1 rules2 : List Condition) (s : String) (p : Row → Bool),
        applyRules df (rules1 ++ Condition.query s false p :: rules2) =
          ((applyRules (applyRules df rules1).1 rules2).1,
            (applyRules df rules1).2 ++ Warning.parseFail s ::
              (applyRules (applyRules df rules1).1 rules2).2)) := by
  constructor
  · intro df s p; rfl
  · intro df rules1 rules2 s p
    unfold applyRules
    rw [foldWithWarnings_append, foldWithWarnings_cons]
    simp [filterDf]

/-- C5: `inject_anomaly` is claimed to be pure apart from RNG consumption,
leaving every per-type strategy list of the anomaly configuration unchanged.
The code violates this: on the corruption branch for an `INTEGER` `age` (or
`salary`) column, `strategies.append(-random.randint(1, 100))` is executed
on the very list object stored in the configuration, so the configured
`INTEGER` strategy list grows by one element. -/
theorem inject_anomaly_mutates_config :
    (inject_anomaly cfgMut (PyVal.int 42) "INTEGER" (some "age") true 0 0 0).2 =
      ⟨some 1, some [("INTEGER", [PyVal.int (-999), PyVal.int (-1)])]⟩ ∧
    (inject_anomaly cfgMut (PyVal.int 42) "INTEGER" (some "age") true 0 0 0).2 ≠
      cfgMut := by
  constructor
  · decide
  · decide

/-- C6 counterexample: with configured corruption probability 0 the claim
says the original value is always returned, for every RNG state; but
`random.random()` can return exactly 0.0, and `0.0 > 0` is false, so the
code takes the corruption branch and returns a strategy value instead of
the original. -/
theorem inject_anomaly_zero_prob_corrupts :
    (inject_anomaly ⟨some 0, some [("TEXT", [PyVal.str "X"])]⟩
      (PyVal.int 5) "TEXT" Option.none true 0 0 0).1 ≠ PyVal.int 5 := by
  decide

/-- C6 (amended): with configured probability 0, `inject_anomaly` returns
the original value unchanged whenever the uniform draw is strictly positive
(the code compares `draw > probability`, so a draw of exactly 0 falls
through to corruption); with configured probability 1 (every draw in `[0,1)`
falls through) and a non-empty strategy list for the dtype, it returns an
element of that strategy list — extended by the freshly generated negative
integer when the dtype is `INTEGER` and the column is `age` or `salary`. -/
theorem inject_anomaly_probability_bounds :
    (∀ (cfg : AnomalyCfg) (value : PyVal) (dtype : String) (col : Option String)
        (nb : Bool) (r : ℚ) (nd ci : ℕ),
        cfg.probability = some 0 → 0 < r →
        (inject_anomaly cfg value dtype col nb r nd ci).1 = value) ∧
    (∀ (cfg : AnomalyCfg) (value : PyVal) (dtype : String) (col : Option String)
        (nb : Bool) (r : ℚ) (nd ci : ℕ),
        cfg.probability = some 1 → r < 1 → cfgStrategies cfg dtype ≠ [] →
        (inject_anomaly cfg value dtype col nb r nd ci).1 ∈
          (if dtype == "INTEGER" && (col == some "age" || col == some "salary")
            then cfgStrategies cfg dtype ++ [PyVal.int (-(1 + (nd % 100 : ℕ) : ℤ))]
            else cfgStrategies cfg dtype)) := by
  constructor
  · intro cfg value dtype col nb r nd ci hp hr
    unfold inject_anomaly
    rw [hp]
    simp only [Option.getD_some]
    rw [if_pos hr]
  · intro cfg value dtype col nb r nd ci hp hr hs
    unfold inject_anomaly
    rw [hp]
    simp only [Option.getD_some]
    rw [if_neg (not_lt.mpr (le_of_lt hr))]
    by_cases hAge :
        (dtype == "INTEGER" && (col == some "age" || col == some "salary")) = true
    · simp only [hAge, if_true]
      have hne : cfgStrategies cfg dtype ++
          [PyVal.int (-(1 + (nd % 100 : ℕ) : ℤ))] ≠ [] := by simp
      have hie : (cfgStrategies cfg dtype ++
          [PyVal.int (-(1 + (nd % 100 : ℕ) : ℤ))]).isEmpty = false :=
        isEmpty_false_of_ne_nil _ hne
      simp only [hie, Bool.false_eq_true, if_false]
      exact getD_mod_mem _ _ _ hne
    · simp only [Bool.not_eq_true] at hAge
      simp only [hAge, Bool.false_eq_true, if_false]
      have hie : (cfgStrategies cfg dtype).isEmpty = false :=
        isEmpty_false_of_ne_nil _ hs
      simp only [hie, Bool.false_eq_true, if_false]
      exact getD_mod_mem _ _ _ hs

/-- Witness for C6 (amended) at concrete inputs: probability 0 with draw
1 keeps the value `5`; probability 1 with draw 0 and strategy list
`["X"]` for `TEXT` lands in that list. -/
theorem inject_anomaly_probability_bounds_witness :
    (inject_anomaly ⟨some 0, some [("TEXT", [PyVal.str "X"])]⟩
        (PyVal.int 5) "TEXT" Option.none true 1 0 0).1 = PyVal.int 5 ∧
    (inject_anomaly ⟨some 1, some [("TEXT", [PyVal.str "X"])]⟩
        (PyVal.int 5) "TEXT" Option.none true 0 0 0).1 ∈
      [PyVal.str "X"] := by
  constructor
  · exact inject_anomaly_probability_bounds.1 _ _ _ _ _ _ _ _ rfl (by decide)
  · have h := inject_anomaly_probability_bounds.2
      ⟨some 1, some [("TEXT", [PyVal.str "X"])]⟩
      (PyVal.int 5) "TEXT" Option.none true 0 0 0 rfl (by decide) (by decide)
    simpa [cfgStrategies, stratLookup] using h

theorem product_names_card (colors products models : List String) (n : ℕ)
    (rng : ℕ → ℕ × ℕ × ℕ) :
    ∀ (fuel i : ℕ) (acc s : Finset String), acc.card ≤ n →
      productNamesLoop colors products models n rng fuel i acc =
        NameGenResult.ok s →
      s.card = n := by
  intro fuel
  induction fuel with
  | zero =>
      intro i acc s hle h
      unfold productNamesLoop at h
      by_cases hlt : acc.card < n
      · rw [if_pos hlt] at h
        exact absurd h (by simp)
      · rw [if_neg hlt] at h
        cases h
        omega
  | succ fuel ih =>
      intro i acc s hle h
      unfold productNamesLoop at h
      by_cases hlt : acc.card < n
      · rw [if_pos hlt] at h
        cases hc1 : pyChoice colors (rng i).1 with
        | none => rw [hc1] at h; simp at h
        | some c =>
            cases hc2 : pyChoice products (rng i).2.1 with
            | none => rw [hc1, hc2] at h; simp at h
            | some p =>
                cases hc3 : pyChoice models (rng i).2.2 with
                | none => rw [hc1, hc2, hc3] at h; simp at h
                | some m =>
                    rw [hc1, hc2, hc3] at h
                    simp only [] at h
                    refine ih (i + 1) _ s ?_ h
                    calc (insert (c ++ " " ++ p ++ " " ++ m) acc).card
                        ≤ acc.card + 1 := Finset.card_insert_le _ _
                      _ ≤ n := Nat.succ_le_of_lt hlt
      · rw [if_neg hlt] at h
        cases h
        omega

/-- C7 counterexample: the claim says the generator raises
`ConfigurationError` whenever a component word list is empty, with the check
made before the sampling loop.  The code has no such check and no such
exception: with all three lists empty and `num_rows = 0` it succeeds and
returns the empty set, and with `num_rows = 1` it fails only inside the
first loop iteration, with the `IndexError` of `random.choice([])`. -/
theorem get_product_names_empty_no_guard :
    get_product_names [] [] [] 0 (fun _ => (0, 0, 0)) 1 = NameGenResult.ok ∅ ∧
    get_product_names [] [] [] 1 (fun _ => (0, 0, 0)) 1 =
      NameGenResult.indexError := by
  exact ⟨by decide, by decide⟩

/-- C7 (amended): there is no pre-loop emptiness check and no
`ConfigurationError`.  With an empty `colors` list and a positive requested
cardinality the run fails inside the loop with `IndexError` (likewise for
the other lists; `colors` is the first one drawn from); and every run that
completes returns a set of exactly `n` distinct strings. -/
theorem get_product_names_behaviour :
    (∀ (products models : List String) (n : ℕ) (rng : ℕ → ℕ × ℕ × ℕ)
        (fuel : ℕ), 0 < n → 0 < fuel →
        get_product_names [] products models n rng fuel =
          NameGenResult.indexError) ∧
    (∀ (colors products models : List String) (n : ℕ) (rng : ℕ → ℕ × ℕ × ℕ)
        (fuel : ℕ) (s : Finset String),
        get_product_names colors products models n rng fuel =
          NameGenResult.ok s →
        s.card = n) := by
  constructor
  · intro products models n rng fuel hn hf
    unfold get_product_names
    cases fuel with
    | zero => exact absurd hf (by simp)
    | succ fuel =>
        unfold productNamesLoop
        rw [if_pos (by simpa using hn)]
        have hc : pyChoice [] (rng 0).1 = Option.none := rfl
        rw [hc]
  · intro colors products models n rng fuel s h
    exact product_names_card colors products models n rng fuel 0 ∅ s
      (by simp) h

/-- Witness for C7 (amended): with an empty color list and `n = 1` the run
ends in `IndexError`; a completing run with one word per list and `n = 1`
returns a singleton set. -/
theorem get_product_names_behaviour_witness :
    get_product_names [] ["Chair"] ["Model A"] 1 (fun _ => (0, 0, 0)) 3 =
      NameGenResult.indexError ∧
    ({"Red Chair Model A"} : Finset String).card = 1 := by
  constructor
  · exact get_product_names_behaviour.1 ["Chair"] ["Model A"] 1
      (fun _ => (0, 0, 0)) 3 (by decide) (by decide)
  · exact get_product_names_behaviour.2 ["Red"] ["Chair"] ["Model A"] 1
      (fun _ => (0, 0, 0)) 1 {"Red Chair Model A"} (by decide)

theorem tableParents_known (t p : String) (h : p ∈ tableParents t) :
    p ∈ knownTables := by
  unfold tableParents at h
  unfold knownTables
  by_cases h1 : t == "transactions"
  · simp [h1] at h
    simp [h]
  · by_cases h2 : t == "user_actions"
    · simp [h1, h2] at h
      simp [h]
    · by_cases h3 : t == "orders"
      · simp [h1, h2, h3] at h
        rcases h with h | h <;> simp [h]
      · simp [h1, h2, h3] at h

theorem dbPool_cons (e : String × ℕ) (es : DbState) (p : String) :
    dbPool (e :: es) p = if e.1 == p then some e.2 else dbPool es p := by
  unfold dbPool
  rw [List.find?_cons]
  cases h : e.1 == p <;> simp [h]

theorem dbInsert_cons (e : String × ℕ) (es : DbState) (nm : String) (k : ℕ) :
    dbInsert (e :: es) nm k =
      (if e.1 == nm then (e.1, e.2 + k) else e) :: dbInsert es nm k := rfl

theorem dbPool_dbInsert (db : DbState) (nm p : String) (k : ℕ) :
    dbPool (dbInsert db nm k) p =
      if p = nm then (dbPool db p).map (fun m => m + k) else dbPool db p := by
  induction db with
  | nil => by_cases h : p = nm <;> simp [dbPool, dbInsert, h]
  | cons e es ih =>
      rw [dbInsert_cons, dbPool_cons, dbPool_cons]
      by_cases h1 : e.1 = nm
      · have hb1 : (e.1 == nm) = true := beq_iff_eq.mpr h1
        by_cases h2 : p = nm
        · have hb2 : (e.1 == p) = true := beq_iff_eq.mpr (h1.trans h2.symm)
          simp [hb1, hb2, h2]
        · have hb2 : (e.1 == p) = false :=
            beq_eq_false_iff_ne.mpr (fun hh => h2 (hh.symm.trans h1))
          simp [hb1, hb2, h2, ih]
      · have hb1 : (e.1 == nm) = false := beq_eq_false_iff_ne.mpr h1
        by_cases h3 : e.1 = p
        · have hb2 : (e.1 == p) = true := beq_iff_eq.mpr h3
          have h4 : ¬ p = nm := fun hh => h1 (h3.trans hh)
          simp [hb1, hb2, h4]
        · have hb2 : (e.1 == p) = false := beq_eq_false_iff_ne.mpr h3
          simp [hb1, hb2, ih]

theorem dbPool_init (decls : List TableDecl) (t : TableDecl) (h : t ∈ decls) :
    (dbPool (decls.map (fun u => (u.name, 0))) t.name).isSome := by
  induction decls with
  | nil => simp at h
  | cons e es ih =>
      rw [List.mem_cons] at h
      unfold dbPool
      cases hb : e.name == t.name
      · simp only [List.map_cons, List.find?_cons, hb, cond_false]
        rcases h with h | h
        · rw [h] at hb
          simp at hb
        · exact ih h
      · simp [List.find?_cons, hb]

theorem genLoop_ok :
    ∀ (rest : List TableDecl) (db : DbState),
      (∀ t ∈ rest, (dbPool db t.name).isSome) →
      (∀ i, i < rest.length →
        ∀ p ∈ tableParents ((rest.getD i defaultDecl).name),
          (∃ k, dbPool db p = some k ∧ 0 < k) ∨
          (∃ j, j < i ∧ (rest.getD j defaultDecl).name = p ∧
            0 < (rest.getD j defaultDecl).numRows)) →
      genLoop db rest = Except.ok (rest.map (fun t => t.name)) := by
  intro rest
  induction rest with
  | nil => intro db _ _; rfl
  | cons h0 tl ih =>
      intro db hdecl hdep
      have hhead : ∀ p ∈ tableParents h0.name,
          ∃ k, dbPool db p = some k ∧ 0 < k := by
        intro p hp
        rcases hdep 0 (by simp) p (by simpa using hp) with hL | ⟨j, hj0, _⟩
        · exact hL
        · omega
      by_cases hkn : h0.name ∈ knownTables
      · have h1 : (tableParents h0.name).any
            (fun p => (dbPool db p).isNone) = false := by
          rw [List.any_eq_false]
          intro p hp
          rcases hhead p hp with ⟨k, hk, _⟩
          simp [hk]
        have h2 : (tableParents h0.name).any
            (fun p => dbPool db p == some 0) = false := by
          rw [List.any_eq_false]
          intro p hp
          rcases hhead p hp with ⟨k, hk, hkpos⟩
          rw [hk]
          simp
          omega
        have hstep : genStep db h0 =
            Except.ok (dbInsert db h0.name h0.numRows) := by
          unfold genStep
          rw [if_pos hkn, h1]
          simp [h2]
        show genLoop db (h0 :: tl) = _
        unfold genLoop
        rw [hstep]
        have htl : genLoop (dbInsert db h0.name h0.numRows) tl =
            Except.ok (tl.map (fun t => t.name)) := by
          apply ih
          · intro t ht
            rw [dbPool_dbInsert]
            by_cases hh : t.name = h0.name
            · rw [if_pos hh, hh]
              have hsome := hdecl h0 (by simp)
              cases hinner : dbPool db h0.name
              · rw [hinner] at hsome
                simp at hsome
              · simp
            · rw [if_neg hh]
              exact hdecl t (List.mem_cons_of_mem _ ht)
          · intro i hi p hp
            rcases hdep (i + 1) (by simpa using hi) p (by simpa using hp)
              with ⟨k, hk, hkpos⟩ | ⟨j, hji, hjn, hjr⟩
            · left
              rw [dbPool_dbInsert]
              by_cases hh : p = h0.name
              · rw [if_pos hh, hk]
                exact ⟨k + h0.numRows, rfl, by omega⟩
              · rw [if_neg hh, hk]
                exact ⟨k, rfl, hkpos⟩
            · cases j with
              | zero =>
                  left
                  simp only [List.getD_cons_zero] at hjn hjr
                  rw [dbPool_dbInsert, if_pos hjn.symm, ← hjn]
                  have hsome := hdecl h0 (by simp)
                  cases hinner : dbPool db h0.name with
                  | none => rw [hinner] at hsome; simp at hsome
                  | some m => exact ⟨m + h0.numRows, rfl, by omega⟩
              | succ j =>
                  right
                  refine ⟨j, by omega, ?_, ?_⟩
                  · simpa using hjn
                  · simpa using hjr
        simp [htl, Except.map]
      · have hstep : genStep db h0 = Except.ok db := by
          unfold genStep
          rw [if_neg hkn]
        show genLoop db (h0 :: tl) = _
        unfold genLoop
        rw [hstep]
        have htl : genLoop db tl = Except.ok (tl.map (fun t => t.name)) := by
          apply ih
          · intro t ht
            exact hdecl t (List.mem_cons_of_mem _ ht)
          · intro i hi p hp
            rcases hdep (i + 1) (by simpa using hi) p (by simpa using hp)
              with hL | ⟨j, hji, hjn, hjr⟩
            · exact Or.inl hL
            · cases j with
              | zero =>
                  exfalso
                  simp only [List.getD_cons_zero] at hjn
                  exact hkn (by rw [hjn]; exact tableParents_known _ _ hp)
              | succ j =>
                  right
                  refine ⟨j, by omega, ?_, ?_⟩
                  · simpa using hjn
                  · simpa using hjr
        simp [htl, Except.map]

/-- C8 counterexample: the claim says tables are generated in an order that
puts parents before children regardless of declaration order, with a fatal
`ConfigurationError` only for dependency cycles.  The code performs no
reordering: declaring the child `transactions` before its parent `users`
(an acyclic dependency graph) makes the run fail mid-generation with the
`IndexError` of drawing from the empty `users` identifier pool — the parent
is never generated first and no `ConfigurationError` exists. -/
theorem generate_sqlite_no_toposort :
    generate_sqlite [⟨"transactions", 1⟩, ⟨"users", 1⟩] =
      Except.error (GenError.indexError "transactions") := rfl

/-- C8 (amended): the Orchestrator performs no topological sorting and no
cycle check: the declarations are processed strictly in configuration
order.  When that declared order happens to respect the dependencies —
every parent of a declared table is declared before it with a positive row
count — the run succeeds and populates the tables exactly in declaration
order. -/
theorem generate_sqlite_declaration_order :
    ∀ (decls : List TableDecl),
      (∀ i, i < decls.length →
        ∀ p ∈ tableParents ((decls.getD i defaultDecl).name),
          ∃ j, j < i ∧ (decls.getD j defaultDecl).name = p ∧
            0 < (decls.getD j defaultDecl).numRows) →
      generate_sqlite decls = Except.ok (decls.map (fun t => t.name)) := by
  intro decls hdep
  unfold generate_sqlite
  apply genLoop_ok
  · intro t ht
    exact dbPool_init decls t ht
  · intro i hi p hp
    exact Or.inr (hdep i hi p hp)

/-- Witness for C8 (amended): a declaration list in dependency order
(`users`, `products`, `transactions`, `orders`) is populated successfully
in exactly that order. -/
theorem generate_sqlite_declaration_order_witness :
    generate_sqlite [⟨"users", 2⟩, ⟨"products", 1⟩, ⟨"transactions", 1⟩,
        ⟨"orders", 3⟩] =
      Except.ok ["users", "products", "transactions", "orders"] := by
  exact generate_sqlite_declaration_order
    [⟨"users", 2⟩, ⟨"products", 1⟩, ⟨"transactions", 1⟩, ⟨"orders", 3⟩]
    (by decide)

theorem framesExtend_refl (h : Heap) : framesExtend h h := by
  simp [framesExtend]

theorem framesExtend_trans {h1 h2 h3 : Heap} (a : framesExtend h1 h2)
    (b : framesExtend h2 h3) : framesExtend h1 h3 := by
  unfold framesExtend at *
  have hle : h1.frames.length ≤ h2.frames.length := by
    have hm := congrArg List.length a
    rw [List.length_take] at hm
    omega
  calc h3.frames.take h1.frames.length
      = (h3.frames.take h2.frames.length).take h1.frames.length := by
        rw [List.take_take, min_eq_left hle]
    _ = h1.frames := by rw [b, a]

theorem framesExtend_alloc (h : Heap) (df : DataFrame) :
    framesExtend h (h.allocFrame df).1 := by
  unfold framesExtend Heap.allocFrame
  simp

theorem framesExtend_dictAssign (h : Heap) (dr : ℕ) (t : String) (fr : ℕ) :
    framesExtend h (h.dictAssign dr t fr) := by
  unfold framesExtend Heap.dictAssign
  simp

theorem fkStepHeap_extends (h : Heap) (dr : ℕ) (t c p : String) :
    framesExtend h (fkStepHeap h dr t c p) := by
  unfold fkStepHeap
  cases hl1 : h.dictLookup dr t with
  | none => exact framesExtend_refl h
  | some cr =>
      cases hl2 : h.dictLookup dr p with
      | none => exact framesExtend_refl h
      | some pr =>
          exact framesExtend_trans
            (framesExtend_trans (framesExtend_alloc _ _) (framesExtend_alloc _ _))
            (framesExtend_dictAssign _ _ _ _)

theorem fkFoldHeap_extends (dr : ℕ) :
    ∀ (l : List (String × String × String)) (h : Heap),
      framesExtend h
        (l.foldl (fun hh tr => fkStepHeap hh dr tr.1 tr.2.1 tr.2.2) h) := by
  intro l
  induction l with
  | nil => intro h; exact framesExtend_refl h
  | cons tr l ih =>
      intro h
      exact framesExtend_trans (fkStepHeap_extends h dr tr.1 tr.2.1 tr.2.2)
        (ih (fkStepHeap h dr tr.1 tr.2.1 tr.2.2))

theorem applyRuleHeapStep_extends (acc : Heap × ℕ) (cond : Condition) :
    framesExtend acc.1 (applyRuleHeapStep acc cond).1 := by
  unfold applyRuleHeapStep
  cases cond with
  | strContains col pat na => exact framesExtend_alloc _ _
  | strMatch col pat na => exact framesExtend_alloc _ _
  | isin col vals => exact framesExtend_alloc _ _
  | strLen col op n => exact framesExtend_alloc _ _
  | query s ok p =>
      cases ok with
      | false => exact framesExtend_refl _
      | true => exact framesExtend_alloc _ _

theorem applyRulesHeap_extends :
    ∀ (rules : List Condition) (acc : Heap × ℕ),
      framesExtend acc.1 (rules.foldl applyRuleHeapStep acc).1 := by
  intro rules
  induction rules with
  | nil => intro acc; exact framesExtend_refl _
  | cons cond rules ih =>
      intro acc
      exact framesExtend_trans (applyRuleHeapStep_extends acc cond)
        (ih (applyRuleHeapStep acc cond))

theorem constraintTableHeap_extends (cfg : ConstCfg) (dr : ℕ) (hh : Heap)
    (t : String) : framesExtend hh (constraintTableHeap cfg dr hh t) := by
  unfold constraintTableHeap
  cases hl : hh.dictLookup dr t with
  | none => exact framesExtend_refl hh
  | some fr =>
      refine framesExtend_trans (applyRulesHeap_extends (constLookup cfg t) (hh, fr))
        (framesExtend_trans (framesExtend_alloc _ _) (framesExtend_dictAssign _ _ _ _))

theorem constraintFoldHeap_extends (cfg : ConstCfg) (dr : ℕ) :
    ∀ (ts : List String) (h : Heap),
      framesExtend h (ts.foldl (constraintTableHeap cfg dr) h) := by
  intro ts
  induction ts with
  | nil => intro h; exact framesExtend_refl h
  | cons t ts ih =>
      intro h
      exact framesExtend_trans (constraintTableHeap_extends cfg dr h t)
        (ih (constraintTableHeap cfg dr h t))

/-- C9 counterexample: the claim says the pipeline returns a dataset object
distinct from its input and leaves the caller's mapping as it was.  At the
object level, `run_all_validations` returns the very dict object it was
given (`return df_dict` of the parameter) and has rebound entries of that
dict in place: after the call the caller's mapping refers to different
frames than before. -/
theorem run_all_heap_returns_input_dict :
    (run_all_validations_heap [("B", [("a_id", "A")])] [] []
      ⟨[⟨[0], [[("id", PyVal.int 1)]]⟩,
        ⟨[0, 1], [[("a_id", PyVal.int 1)], [("a_id", PyVal.int 5)]]⟩],
       [[("A", 0), ("B", 1)]]⟩ 0).2 = 0 ∧
    (run_all_validations_heap [("B", [("a_id", "A")])] [] []
      ⟨[⟨[0], [[("id", PyVal.int 1)]]⟩,
        ⟨[0, 1], [[("a_id", PyVal.int 1)], [("a_id", PyVal.int 5)]]⟩],
       [[("A", 0), ("B", 1)]]⟩ 0).1.readDict 0 ≠
      (⟨[⟨[0], [[("id", PyVal.int 1)]]⟩,
        ⟨[0, 1], [[("a_id", PyVal.int 1)], [("a_id", PyVal.int 5)]]⟩],
       [[("A", 0), ("B", 1)]]⟩ : Heap).readDict 0 := by
  exact ⟨by decide, by decide⟩

/-- C9 (amended): `run_all_validations` returns the caller's own mapping
(the same dict object, whose entries it has rebound in place), and no
DataFrame object that existed before the call is ever mutated — every row
filter and every `reset_index` allocates a fresh reduced copy, so any other
alias of an input frame still sees all its original rows. -/
theorem run_all_heap_no_frame_mutation :
    ∀ (fk : FKCfg) (ck : CKCfg) (cst : ConstCfg) (h : Heap) (dr : ℕ),
      (run_all_validations_heap fk ck cst h dr).2 = dr ∧
      framesExtend h (run_all_validations_heap fk ck cst h dr).1 := by
  intro fk ck cst h dr
  constructor
  · rfl
  · show framesExtend h
      (validate_constraints_heap cst (validate_foreign_keys_heap fk h dr).1 dr).1
    exact framesExtend_trans (fkFoldHeap_extends dr (fkTriples fk) h)
      (constraintFoldHeap_extends cst dr _ _)

theorem validate_foreign_keys_fst (cfg : FKCfg) (d : Dataset) :
    (validate_foreign_keys cfg d).1 = fkApplyAll (fkTriples cfg) d := by
  unfold validate_foreign_keys fkApplyAll
  exact foldWithWarnings_fst _ _ d

theorem fkStep_lookup_ne (d : Dataset) (t c p q : String) (h : q ≠ t) :
    ((fkStep d t c p).1).lookup q = d.lookup q := by
  unfold fkStep
  cases hl1 : d.lookup t with
  | none => rfl
  | some child =>
      cases hl2 : d.lookup p with
      | none => rfl
      | some par => exact lookup_update_ne d t q _ h

theorem fkStep_lookup_cases (d : Dataset) (t c p : String) :
    ((fkStep d t c p).1).lookup t = d.lookup t ∨
    ∃ child par, d.lookup t = some child ∧ d.lookup p = some par ∧
      ((fkStep d t c p).1).lookup t =
        some ((child.filterRows
          (fun r => (par.col "id").contains (Row.getCell r c))).resetIndex) := by
  unfold fkStep
  cases hl1 : d.lookup t with
  | none =>
      cases hl2 : d.lookup p with
      | none => exact Or.inl (by rw [hl1])
      | some par => exact Or.inl (by rw [hl1])
  | some child =>
      cases hl2 : d.lookup p with
      | none => exact Or.inl (by rw [hl1])
      | some par =>
          right
          refine ⟨child, par, rfl, rfl, ?_⟩
          exact lookup_update_eq d t _ (by rw [hl1]; rfl)

theorem fkApplyAll_sublist :
    ∀ (l : List (String × String × String)) (d : Dataset) (t : String)
      (df' : DataFrame),
      (fkApplyAll l d).lookup t = some df' →
      ∃ df, d.lookup t = some df ∧ List.Sublist df'.rows df.rows ∧
        (df'.index = List.range df'.rows.length ∨ df' = df) := by
  intro l
  induction l with
  | nil =>
      intro d t df' h
      exact ⟨df', h, List.Sublist.refl _, Or.inr rfl⟩
  | cons tr l ih =>
      intro d t df' h
      have hstep : fkApplyAll (tr :: l) d =
          fkApplyAll l (fkStep d tr.1 tr.2.1 tr.2.2).1 := rfl
      rw [hstep] at h
      obtain ⟨df1, hdf1, hsub1, hidx1⟩ := ih _ t df' h
      by_cases ht : t = tr.1
      · subst ht
        rcases fkStep_lookup_cases d tr.1 tr.2.1 tr.2.2 with
          heq | ⟨child, par, hc, _, hres⟩
        · rw [heq] at hdf1
          exact ⟨df1, hdf1, hsub1, hidx1⟩
        · rw [hres] at hdf1
          cases hdf1
          refine ⟨child, hc, ?_, ?_⟩
          · exact hsub1.trans (List.filter_sublist child.rows)
          · rcases hidx1 with h1 | h1
            · exact Or.inl h1
            · rw [h1]
              exact Or.inl rfl
      · rw [fkStep_lookup_ne d tr.1 tr.2.1 tr.2.2 t ht] at hdf1
        exact ⟨df1, hdf1, hsub1, hidx1⟩

theorem filterDf_rows_sublist (df : DataFrame) (cond : Condition) :
    List.Sublist ((filterDf df cond).1).rows df.rows := by
  cases cond with
  | strContains c pat na => exact List.filter_sublist df.rows
  | strMatch c pat na => exact List.filter_sublist df.rows
  | isin c vals => exact List.filter_sublist df.rows
  | strLen c op n => exact List.filter_sublist df.rows
  | query s ok p =>
      cases ok with
      | false => exact List.Sublist.refl _
      | true => exact List.filter_sublist df.rows

theorem applyRules_rows_sublist :
    ∀ (rules : List Condition) (df : DataFrame),
      List.Sublist ((applyRules df rules).1).rows df.rows := by
  intro rules
  induction rules with
  | nil => intro df; exact List.Sublist.refl _
  | cons cond rules ih =>
      intro df
      have hc : (applyRules df (cond :: rules)).1 =
          (applyRules (filterDf df cond).1 rules).1 := by
        unfold applyRules
        rw [foldWithWarnings_cons]
      rw [hc]
      exact (ih (filterDf df cond).1).trans (filterDf_rows_sublist df cond)

theorem validate_constraints_lookup (cfg : ConstCfg) (d : Dataset) (t : String) :
    ((validate_constraints cfg d).1).lookup t =
      (d.lookup t).map
        (fun df => (applyRules df (constLookup cfg t)).1.resetIndex) := by
  unfold validate_constraints Dataset.lookup
  rw [List.find?_map]
  cases hf : List.find? (fun e => e.1 == t) d with
  | none =>
      have hf2 : List.find?
          ((fun e => e.1 == t) ∘
            (fun e => (e.1, (applyRules e.2 (constLookup cfg e.1)).1.resetIndex))) d =
          Option.none := by
        rw [show ((fun (e : String × DataFrame) => e.1 == t) ∘
          (fun e => (e.1, (applyRules e.2 (constLookup cfg e.1)).1.resetIndex))) =
          (fun (e : String × DataFrame) => e.1 == t) from rfl]
        exact hf
      rw [hf2]
      rfl
  | some e =>
      have hf2 : List.find?
          ((fun e => e.1 == t) ∘
            (fun e => (e.1, (applyRules e.2 (constLookup cfg e.1)).1.resetIndex))) d =
          some e := by
        rw [show ((fun (e : String × DataFrame) => e.1 == t) ∘
          (fun e => (e.1, (applyRules e.2 (constLookup cfg e.1)).1.resetIndex))) =
          (fun (e : String × DataFrame) => e.1 == t) from rfl]
        exact hf
      rw [hf2]
      have het : e.1 = t := by
        have hx := List.find?_some hf
        simpa using hx
      simp [het]

/-- C10 counterexample: the claim says every table returned by
`validate_foreign_keys` has its positional index reset to `0..k-1`; but
tables not touched by any applicable foreign-key entry are returned exactly
as they were, stale index labels included. -/
theorem validate_foreign_keys_keeps_stale_index :
    ((validate_foreign_keys [("u", [("c", "p")])]
        [("t", ⟨[5], [[("a", PyVal.int 1)]]⟩),
         ("u", ⟨[0], [[("c", PyVal.int 1)]]⟩),
         ("p", ⟨[0], [[("id", PyVal.int 1)]]⟩)]).1).lookup "t" =
      some ⟨[5], [[("a", PyVal.int 1)]]⟩ ∧
    ([5] : List ℕ) ≠ List.range 1 := by
  exact ⟨by decide, by decide⟩

/-- C10 (amended): both row-deleting phases only ever delete whole rows —
for every dataset and table, the surviving rows form a subsequence of the
input rows, in order and with all cell values unchanged.
`validate_constraints` additionally resets every table's index to `0..k-1`;
`validate_foreign_keys` resets the index only of tables it actually
filters, returning every other table entirely unchanged. -/
theorem validation_phases_row_subsequence :
    ∀ (fk : FKCfg) (cst : ConstCfg) (d : Dataset) (t : String)
      (df df' df2 : DataFrame),
      (d.lookup t = some df →
        ((validate_foreign_keys fk d).1).lookup t = some df' →
        (List.Sublist df'.rows df.rows ∧
          (df'.index = List.range df'.rows.length ∨ df' = df))) ∧
      (d.lookup t = some df →
        ((validate_constraints cst d).1).lookup t = some df2 →
        (List.Sublist df2.rows df.rows ∧
          df2.index = List.range df2.rows.length)) := by
  intro fk cst d t df df' df2
  constructor
  · intro hd hv
    rw [validate_foreign_keys_fst] at hv
    obtain ⟨df0, hdf0, hsub, hidx⟩ := fkApplyAll_sublist (fkTriples fk) d t df' hv
    rw [hd] at hdf0
    cases hdf0
    exact ⟨hsub, hidx⟩
  · intro hd hv
    rw [validate_constraints_lookup, hd] at hv
    have hv2 : some ((applyRules df (constLookup cst t)).1.resetIndex) = some df2 := hv
    cases hv2
    exact ⟨applyRules_rows_sublist (constLookup cst t) df, rfl⟩

/-- Witness for C10 (amended), at a concrete dataset: the foreign-key pass
drops the orphan row of `B` and resets its index; the constraint pass
filters `B` by an `isin` rule and resets its index. -/
theorem validation_phases_row_subsequence_witness :
    (List.Sublist [[("a_id", PyVal.int 1)]]
        [[("a_id", PyVal.int 1)], [("a_id", PyVal.int 5)]] ∧
      (([0] : List ℕ) = List.range 1 ∨
        (⟨[0], [[("a_id", PyVal.int 1)]]⟩ : DataFrame) =
          ⟨[0, 1], [[("a_id", PyVal.int 1)], [("a_id", PyVal.int 5)]]⟩)) ∧
    (List.Sublist [[("a_id", PyVal.int 1)]]
        [[("a_id", PyVal.int 1)], [("a_id", PyVal.int 5)]] ∧
      ([0] : List ℕ) = List.range 1) := by
  constructor
  · exact (validation_phases_row_subsequence [("B", [("a_id", "A")])]
      [("B", [Condition.isin "a_id" [PyVal.int 1]])]
      [("A", ⟨[0], [[("id", PyVal.int 1)]]⟩),
       ("B", ⟨[0, 1], [[("a_id", PyVal.int 1)], [("a_id", PyVal.int 5)]]⟩)]
      "B" ⟨[0, 1], [[("a_id", PyVal.int 1)], [("a_id", PyVal.int 5)]]⟩
      ⟨[0], [[("a_id", PyVal.int 1)]]⟩
      ⟨[0], [[("a_id", PyVal.int 1)]]⟩).1 (by decide) (by decide)
  · exact (validation_phases_row_subsequence [("B", [("a_id", "A")])]
      [("B", [Condition.isin "a_id" [PyVal.int 1]])]
      [("A", ⟨[0], [[("id", PyVal.int 1)]]⟩),
       ("B", ⟨[0, 1], [[("a_id", PyVal.int 1)], [("a_id", PyVal.int 5)]]⟩)]
      "B" ⟨[0, 1], [[("a_id", PyVal.int 1)], [("a_id", PyVal.int 5)]]⟩
      ⟨[0], [[("a_id", PyVal.int 1)]]⟩
      ⟨[0], [[("a_id", PyVal.int 1)]]⟩).2 (by decide) (by decide)

theorem survivesAll_congr (t : String) (r : Row) :
    ∀ (l : List (String × String × String)) (d1 d : Dataset),
      (∀ tr ∈ l, d1.lookup tr.2.2 = d.lookup tr.2.2) →
      survivesAll l d1 t r = survivesAll l d t r := by
  intro l
  induction l with
  | nil => intro d1 d _; rfl
  | cons tr l ih =>
      intro d1 d h
      unfold survivesAll at *
      rw [List.all_cons, List.all_cons]
      have h1 : fkKeep d1 t tr r = fkKeep d t tr r := by
        unfold fkKeep
        rw [h tr (List.mem_cons_self _ _)]
      rw [h1, ih d1 d (fun tr2 h2 => h tr2 (List.mem_cons_of_mem _ h2))]

theorem fkApplyAll_lookup_nochild :
    ∀ (l : List (String × String × String)) (d : Dataset) (q : String),
      (∀ tr ∈ l, tr.1 ≠ q) → (fkApplyAll l d).lookup q = d.lookup q := by
  intro l
  induction l with
  | nil => intro d q _; rfl
  | cons tr l ih =>
      intro d q h
      have hstep : fkApplyAll (tr :: l) d =
          fkApplyAll l (fkStep d tr.1 tr.2.1 tr.2.2).1 := rfl
      rw [hstep, ih _ q (fun tr2 h2 => h tr2 (List.mem_cons_of_mem _ h2))]
      exact fkStep_lookup_ne d tr.1 tr.2.1 tr.2.2 q
        (fun hh => h tr (List.mem_cons_self _ _) hh.symm)

theorem fkStep_parent_lookup (d : Dataset) (tr : String × String × String)
    (q : String) (h : tr.1 ≠ q) :
    ((fkStep d tr.1 tr.2.1 tr.2.2).1).lookup q = d.lookup q :=
  fkStep_lookup_ne d tr.1 tr.2.1 tr.2.2 q (fun hh => h hh.symm)

theorem fkApplyAll_child_rows :
    ∀ (l : List (String × String × String)) (d : Dataset) (t : String)
      (child : DataFrame),
      (∀ tr1 ∈ l, ∀ tr2 ∈ l, tr1.1 ≠ tr2.2.2) →
      d.lookup t = some child →
      ∃ df', (fkApplyAll l d).lookup t = some df' ∧
        df'.rows = child.rows.filter (survivesAll l d t) := by
  intro l
  induction l with
  | nil =>
      intro d t child _ hc
      refine ⟨child, hc, ?_⟩
      have hft : child.rows.filter (survivesAll [] d t) = child.rows := by
        apply List.filter_eq_self.mpr
        intro a _
        rfl
      rw [hft]
  | cons tr l ih =>
      intro d t child hsep hc
      have hsep' : ∀ tr1 ∈ l, ∀ tr2 ∈ l, tr1.1 ≠ tr2.2.2 :=
        fun tr1 h1 tr2 h2 =>
          hsep tr1 (List.mem_cons_of_mem _ h1) tr2 (List.mem_cons_of_mem _ h2)
      have hstep : fkApplyAll (tr :: l) d =
          fkApplyAll l (fkStep d tr.1 tr.2.1 tr.2.2).1 := rfl
      rw [hstep]
      have hpars : ∀ tr2 ∈ l,
          ((fkStep d tr.1 tr.2.1 tr.2.2).1).lookup tr2.2.2 = d.lookup tr2.2.2 :=
        fun tr2 h2 =>
          fkStep_parent_lookup d tr tr2.2.2
            (hsep tr (List.mem_cons_self _ _) tr2 (List.mem_cons_of_mem _ h2))
      by_cases ht : tr.1 = t
      · subst ht
        cases hp : d.lookup tr.2.2 with
        | none =>
            have hskip : (fkStep d tr.1 tr.2.1 tr.2.2).1 = d := by
              unfold fkStep
              rw [hc, hp]
            rw [hskip]
            obtain ⟨df', hdf', hrows⟩ := ih d tr.1 child hsep' hc
            refine ⟨df', hdf', ?_⟩
            rw [hrows]
            apply List.filter_congr
            intro a _
            unfold survivesAll
            rw [List.all_cons]
            have hk : fkKeep d tr.1 tr a = true := by
              unfold fkKeep
              rw [hp]
              simp
            rw [hk]
            simp
        | some par =>
            have hstep2 : (fkStep d tr.1 tr.2.1 tr.2.2).1 =
                d.update tr.1 ((child.filterRows (fun r =>
                  (par.col "id").contains (Row.getCell r tr.2.1))).resetIndex) := by
              unfold fkStep
              rw [hc, hp]
            have hc1 : ((fkStep d tr.1 tr.2.1 tr.2.2).1).lookup tr.1 =
                some ((child.filterRows (fun r =>
                  (par.col "id").contains (Row.getCell r tr.2.1))).resetIndex) := by
              rw [hstep2]
              exact lookup_update_eq d tr.1 _ (by rw [hc]; rfl)
            obtain ⟨df', hdf', hrows⟩ :=
              ih ((fkStep d tr.1 tr.2.1 tr.2.2).1) tr.1 _ hsep' hc1
            refine ⟨df', hdf', ?_⟩
            rw [hrows]
            have hrs : ((child.filterRows (fun r =>
                (par.col "id").contains (Row.getCell r tr.2.1))).resetIndex).rows =
                child.rows.filter (fun r =>
                  (par.col "id").contains (Row.getCell r tr.2.1)) := rfl
            rw [hrs, List.filter_filter]
            apply List.filter_congr
            intro a _
            rw [survivesAll_congr tr.1 a l _ d hpars]
            unfold survivesAll
            rw [List.all_cons]
            have hk : fkKeep d tr.1 tr a =
                (par.col "id").contains (Row.getCell a tr.2.1) := by
              unfold fkKeep
              rw [hp]
              simp
            rw [hk]
            exact Bool.and_comm _ _
      · have hne : ((fkStep d tr.1 tr.2.1 tr.2.2).1).lookup t = d.lookup t :=
          fkStep_lookup_ne d tr.1 tr.2.1 tr.2.2 t (fun hh => ht hh.symm)
        obtain ⟨df', hdf', hrows⟩ :=
          ih ((fkStep d tr.1 tr.2.1 tr.2.2).1) t child hsep' (by rw [hne]; exact hc)
        refine ⟨df', hdf', ?_⟩
        rw [hrows]
        apply List.filter_congr
        intro a _
        rw [survivesAll_congr t a l _ d hpars]
        unfold survivesAll
        rw [List.all_cons]
        have hk : fkKeep d t tr a = true := by
          unfold fkKeep
          rw [if_neg ?_]
          simp [beq_iff_eq]
          exact ht
        rw [hk]
        simp

/-- C1 counterexample: foreign keys are enforced in configuration order
against the parent's rows at that moment, so a parent filtered by a later
entry can leave orphans behind.  Here `B.a_id -> A` is processed while `A`
still has ids `{1, 2}`, then `A.c_id -> C` removes the `A` row with id 2:
the surviving `B` row references id 2, which is no longer in the final `A`
key set — an orphan survives even though both tables were present. -/
theorem validate_foreign_keys_orphan_survives :
    ((validate_foreign_keys
        [("B", [("a_id", "A")]), ("A", [("c_id", "C")])]
        [("A", ⟨[0, 1], [[("id", PyVal.int 1), ("c_id", PyVal.int 1)],
                         [("id", PyVal.int 2), ("c_id", PyVal.int 9)]]⟩),
         ("C", ⟨[0], [[("id", PyVal.int 1)]]⟩),
         ("B", ⟨[0], [[("a_id", PyVal.int 2)]]⟩)]).1).lookup "B" =
      some ⟨[0], [[("a_id", PyVal.int 2)]]⟩ ∧
    ((validate_foreign_keys
        [("B", [("a_id", "A")]), ("A", [("c_id", "C")])]
        [("A", ⟨[0, 1], [[("id", PyVal.int 1), ("c_id", PyVal.int 1)],
                         [("id", PyVal.int 2), ("c_id", PyVal.int 9)]]⟩),
         ("C", ⟨[0], [[("id", PyVal.int 1)]]⟩),
         ("B", ⟨[0], [[("a_id", PyVal.int 2)]]⟩)]).1).lookup "A" =
      some ⟨[0], [[("id", PyVal.int 1), ("c_id", PyVal.int 1)]]⟩ ∧
    ((⟨[0], [[("id", PyVal.int 1), ("c_id", PyVal.int 1)]]⟩ : DataFrame).col
        "id").contains (Row.getCell [("a_id", PyVal.int 2)] "a_id") = false := by
  exact ⟨by decide, by decide, by decide⟩

/-- C1 (amended): each foreign-key entry is enforced against the parent's
rows as they stand when that entry is processed (entries in configuration
order).  Provided no table ever occurs both as a child and as a parent in
the configuration — so no parent is filtered after being used — the claim
holds as stated: for every declared `(table, fk_col) -> parent` with both
tables present, after `validate_foreign_keys` the child retains exactly the
rows whose checks all pass (only orphans are removed), and every surviving
row's `fk_col` value is in the final parent `id` set (no orphan survives;
the parent's rows are unchanged). -/
theorem validate_foreign_keys_no_orphans :
    ∀ (cfg : FKCfg) (d : Dataset) (t c p : String) (child par : DataFrame),
      (∀ tr1 ∈ fkTriples cfg, ∀ tr2 ∈ fkTriples cfg, tr1.1 ≠ tr2.2.2) →
      (t, c, p) ∈ fkTriples cfg →
      d.lookup t = some child →
      d.lookup p = some par →
      ∃ df', ((validate_foreign_keys cfg d).1).lookup t = some df' ∧
        ((validate_foreign_keys cfg d).1).lookup p = some par ∧
        df'.rows = child.rows.filter (survivesAll (fkTriples cfg) d t) ∧
        ∀ r ∈ df'.rows,
          (par.col "id").contains (Row.getCell r c) = true := by
  intro cfg d t c p child par hsep hmem hc hp
  rw [validate_foreign_keys_fst]
  obtain ⟨df', hdf', hrows⟩ :=
    fkApplyAll_child_rows (fkTriples cfg) d t child hsep hc
  refine ⟨df', hdf', ?_, hrows, ?_⟩
  · rw [fkApplyAll_lookup_nochild (fkTriples cfg) d p
      (fun tr htr => hsep tr htr (t, c, p) hmem)]
    exact hp
  · intro r hr
    rw [hrows] at hr
    have hsurv := List.of_mem_filter hr
    unfold survivesAll at hsurv
    rw [List.all_eq_true] at hsurv
    have hk := hsurv (t, c, p) hmem
    unfold fkKeep at hk
    simpa [hp] using hk

/-- Witness for C1 (amended): a single fk `B.a_id -> A`; the orphan row of
`B` is removed, the valid row survives, and `A` is untouched. -/
theorem validate_foreign_keys_no_orphans_witness :
    ∃ df', ((validate_foreign_keys [("B", [("a_id", "A")])]
        [("A", ⟨[0], [[("id", PyVal.int 1)]]⟩),
         ("B", ⟨[0, 1], [[("a_id", PyVal.int 1)],
                         [("a_id", PyVal.int 5)]]⟩)]).1).lookup "B" = some df' ∧
      ((validate_foreign_keys [("B", [("a_id", "A")])]
        [("A", ⟨[0], [[("id", PyVal.int 1)]]⟩),
         ("B", ⟨[0, 1], [[("a_id", PyVal.int 1)],
                         [("a_id", PyVal.int 5)]]⟩)]).1).lookup "A" =
        some ⟨[0], [[("id", PyVal.int 1)]]⟩ ∧
      df'.rows = ([[("a_id", PyVal.int 1)], [("a_id", PyVal.int 5)]] :
          List Row).filter
          (survivesAll (fkTriples [("B", [("a_id", "A")])])
            [("A", ⟨[0], [[("id", PyVal.int 1)]]⟩),
             ("B", ⟨[0, 1], [[("a_id", PyVal.int 1)],
                             [("a_id", PyVal.int 5)]]⟩)] "B") ∧
      ∀ r ∈ df'.rows,
        (((⟨[0], [[("id", PyVal.int 1)]]⟩ : DataFrame).col "id").contains
          (Row.getCell r "a_id")) = true := by
  exact validate_foreign_keys_no_orphans [("B", [("a_id", "A")])]
    [("A", ⟨[0], [[("id", PyVal.int 1)]]⟩),
     ("B", ⟨[0, 1], [[("a_id", PyVal.int 1)], [("a_id", PyVal.int 5)]]⟩)]
    "B" "a_id" "A" ⟨[0, 1], [[("a_id", PyVal.int 1)], [("a_id", PyVal.int 5)]]⟩
    ⟨[0], [[("id", PyVal.int 1)]]⟩
    (by decide) (by decide) (by decide) (by decide)

theorem foldWithWarnings_fixed {α β : Type} (g : α → β → α × List Warning) :
    ∀ (l : List β) (a : α), (∀ b ∈ l, g a b = (a, [])) →
      foldWithWarnings g l a = (a, []) := by
  intro l
  induction l with
  | nil => intro a _; rfl
  | cons b l ih =>
      intro a h
      rw [foldWithWarnings_cons, h b (List.mem_cons_self _ _)]
      rw [ih a (fun b2 h2 => h b2 (List.mem_cons_of_mem _ h2))]
      rfl

theorem flatMap_nil_of {α β : Type} (l : List α) (f : α → List β)
    (h : ∀ x ∈ l, f x = []) : l.flatMap f = [] := by
  induction l with
  | nil => rfl
  | cons x l ih =>
      rw [List.flatMap_cons, h x (List.mem_cons_self _ _),
        ih (fun y hy => h y (List.mem_cons_of_mem _ hy))]
      rfl

theorem map_id_of {α : Type} (l : List α) (f : α → α)
    (h : ∀ x ∈ l, f x = x) : l.map f = l := by
  induction l with
  | nil => rfl
  | cons x l ih =>
      rw [List.map_cons, h x (List.mem_cons_self _ _),
        ih (fun y hy => h y (List.mem_cons_of_mem _ hy))]

theorem lookup_mem (d : Dataset) (t : String) (df : DataFrame)
    (h : d.lookup t = some df) : ∃ e ∈ d, e.2 = df := by
  unfold Dataset.lookup at h
  cases hf : d.find? (fun e => e.1 == t) with
  | none => rw [hf] at h; simp at h
  | some e =>
      rw [hf] at h
      have h2 : e.2 = df := by simpa using h
      exact ⟨e, List.mem_of_find?_eq_some hf, h2⟩

theorem filterRows_eq_self (df : DataFrame) (p : Row → Bool)
    (hidx : df.index = List.range df.rows.length)
    (h : ∀ r ∈ df.rows, p r = true) : df.filterRows p = df := by
  unfold DataFrame.filterRows
  have hrows : df.rows.filter p = df.rows := List.filter_eq_self.mpr h
  have hzip : (df.index.zip df.rows).filter (fun ir => p ir.2) =
      df.index.zip df.rows := by
    apply List.filter_eq_self.mpr
    intro ir hir
    exact h ir.2 (List.of_mem_zip hir).2
  have hlen : df.index.length ≤ df.rows.length := by
    simp [hidx]
  rw [hrows, hzip, List.map_fst_zip df.index df.rows hlen]

theorem resetIndex_eq_self (df : DataFrame)
    (hidx : df.index = List.range df.rows.length) : df.resetIndex = df := by
  unfold DataFrame.resetIndex
  rw [← hidx]

/-- C4 counterexample: re-running the pipeline is not the identity on its
own output.  With `B.a_id -> A` processed before `A.c_id -> C`, the first
run leaves an orphan row in `B` (see the C1 counterexample); the second run
then removes it, so `run_all(run_all(D)) ≠ run_all(D)`. -/
theorem run_all_validations_not_idempotent :
    (run_all_validations [("B", [("a_id", "A")]), ("A", [("c_id", "C")])] [] []
      (run_all_validations [("B", [("a_id", "A")]), ("A", [("c_id", "C")])] [] []
        [("A", ⟨[0, 1], [[("id", PyVal.int 1), ("c_id", PyVal.int 1)],
                         [("id", PyVal.int 2), ("c_id", PyVal.int 9)]]⟩),
         ("C", ⟨[0], [[("id", PyVal.int 1)]]⟩),
         ("B", ⟨[0], [[("a_id", PyVal.int 2)]]⟩)]).1).1 ≠
    (run_all_validations [("B", [("a_id", "A")]), ("A", [("c_id", "C")])] [] []
      [("A", ⟨[0, 1], [[("id", PyVal.int 1), ("c_id", PyVal.int 1)],
                       [("id", PyVal.int 2), ("c_id", PyVal.int 9)]]⟩),
       ("C", ⟨[0], [[("id", PyVal.int 1)]]⟩),
       ("B", ⟨[0], [[("a_id", PyVal.int 2)]]⟩)]).1 := by
  decide

/-- C4 (amended): `run_all_validations` is the identity, with no warnings,
on every clean dataset: distinct table names, canonical `0..k-1` indexes,
every configured foreign key satisfied with both tables present, no
configured composite-key duplicates, and every constraint rule retaining
all rows without a warning.  Hence a second run is the identity and
warning-free exactly when the first run's output is clean — which can fail:
composite-key duplicates are never removed (their warning recurs on every
run), and out-of-order foreign-key configurations or constraint filters on
parent tables can leave orphans for the second run to remove. -/
theorem run_all_validations_identity_on_clean :
    ∀ (fk : FKCfg) (ck : CKCfg) (cst : ConstCfg) (d : Dataset),
      (d.map Prod.fst).Nodup →
      (∀ e ∈ d, e.2.index = List.range e.2.rows.length) →
      (∀ tr ∈ fkTriples fk, (d.lookup tr.1).isSome ∧
        (d.lookup tr.2.2).isSome ∧
        ∀ r ∈ (lookupD d tr.1).rows,
          ((lookupD d tr.2.2).col "id").contains (Row.getCell r tr.2.1) = true) →
      (∀ e ∈ ck, ∀ keys ∈ e.2, hasDup (lookupD d e.1) keys = false) →
      (∀ e ∈ d, ∀ cond ∈ constLookup cst e.1, filterDf e.2 cond = (e.2, [])) →
      run_all_validations fk ck cst d = (d, []) := by
  intro fk ck cst d hkeys hidx hfk hck hcst
  have hfkphase : validate_foreign_keys fk d = (d, []) := by
    unfold validate_foreign_keys
    apply foldWithWarnings_fixed
    intro tr htr
    obtain ⟨hs1, hs2, hmem⟩ := hfk tr htr
    cases hc : d.lookup tr.1 with
    | none => rw [hc] at hs1; simp at hs1
    | some child =>
        cases hp : d.lookup tr.2.2 with
        | none => rw [hp] at hs2; simp at hs2
        | some par =>
            have hchild : lookupD d tr.1 = child := by
              unfold lookupD
              rw [hc]
              rfl
            have hpar : lookupD d tr.2.2 = par := by
              unfold lookupD
              rw [hp]
              rfl
            rw [hchild, hpar] at hmem
            have hcidx : child.index = List.range child.rows.length := by
              obtain ⟨e, he, he2⟩ := lookup_mem d tr.1 child hc
              rw [← he2]
              exact hidx e he
            have hfix : child.filterRows (fun r =>
                (par.col "id").contains (Row.getCell r tr.2.1)) = child :=
              filterRows_eq_self child _ hcidx hmem
            unfold fkStep
            rw [hc, hp]
            show (d.update tr.1 ((child.filterRows (fun r =>
              (par.col "id").contains (Row.getCell r tr.2.1))).resetIndex), []) =
              (d, [])
            rw [hfix, resetIndex_eq_self child hcidx,
              update_self d tr.1 child hkeys hc]
  have hckphase : validate_composite_keys ck (d) = (d, []) := by
    unfold validate_composite_keys
    rw [flatMap_nil_of ck (ckWarn d)]
    intro e he
    unfold ckWarn
    cases hl : d.lookup e.1 with
    | none => rfl
    | some df =>
        apply flatMap_nil_of
        intro keys hkeys2
        have hd := hck e he keys hkeys2
        rw [show lookupD d e.1 = df from by unfold lookupD; rw [hl]; rfl] at hd
        rw [hd]
        rfl
  have hcstphase : validate_constraints cst d = (d, []) := by
    unfold validate_constraints
    have hmap : ∀ e ∈ d,
        (fun e => (e.1, (applyRules e.2 (constLookup cst e.1)).1.resetIndex)) e
          = e := by
      intro e he
      have hrules : applyRules e.2 (constLookup cst e.1) = (e.2, []) := by
        unfold applyRules
        exact foldWithWarnings_fixed filterDf _ e.2 (hcst e he)
      simp only [hrules]
      rw [resetIndex_eq_self e.2 (hidx e he)]
    rw [map_id_of d _ hmap]
    rw [flatMap_nil_of d _ ?_]
    intro e he
    have hrules : applyRules e.2 (constLookup cst e.1) = (e.2, []) := by
      unfold applyRules
      exact foldWithWarnings_fixed filterDf _ e.2 (hcst e he)
    rw [hrules]
  unfold run_all_validations
  rw [hfkphase]
  simp only []
  rw [hckphase]
  simp only []
  rw [hcstphase]
  rfl

/-- Witness for C4 (amended): a clean two-table dataset with a satisfied
foreign key and a duplicate-free composite key passes through
`run_all_validations` unchanged with no warnings. -/
theorem run_all_validations_identity_on_clean_witness :
    run_all_validations [("B", [("a_id", "A")])] [("A", [["id"]])] []
      [("A", ⟨[0], [[("id", PyVal.int 1)]]⟩),
       ("B", ⟨[0], [[("a_id", PyVal.int 1)]]⟩)] =
    ([("A", ⟨[0], [[("id", PyVal.int 1)]]⟩),
      ("B", ⟨[0], [[("a_id", PyVal.int 1)]]⟩)], []) := by
  exact run_all_validations_identity_on_clean
    [("B", [("a_id", "A")])] [("A", [["id"]])] []
    [("A", ⟨[0], [[("id", PyVal.int 1)]]⟩),
     ("B", ⟨[0], [[("a_id", PyVal.int 1)]]⟩)]
    (by decide) (by decide) (by decide) (by decide) (by decide)

end ETL



